import Mathlib

/-!
Shallow embedding of the shape/rank model of `src/math/shapes.ts`
(shape inference for nested numeric arrays, element counts, rank
conversion, and bounded multi-dimensional iteration), together with
proofs of the specified properties.

Dimension sizes coming from array lengths are natural numbers, so shapes
are embedded as `List Nat`.  The iteration helpers take their bounds as
`Int` because the source accepts arbitrary numeric lengths there and the
behaviour on non-positive lengths is part of the specification.
-/

/-- A nested numeric array value: either a scalar number or an ordered
sequence of nested values.  This embeds the union `ArrayMap | number`
that the inference loop of the source walks through. -/
inductive ArrayMap where
  | num (x : Int) : ArrayMap
  | arr (elems : List ArrayMap) : ArrayMap

/-- `inferShape` from `src/math/shapes.ts`: walk from the outermost level
inward, at each level recording the length of the current sequence and
descending into its first element; stop when the current value is not a
sequence.  On an empty sequence the length 0 is recorded and the walk
stops (element 0 of an empty sequence is absent, hence not a sequence). -/
def inferShape : ArrayMap → List Nat
  | .num _ => []
  | .arr [] => [0]
  | .arr (x :: xs) => (x :: xs).length :: inferShape x

/-- `shapeLength` from `src/math/shapes.ts`: start from 1 and multiply in
every dimension of the shape, left to right. -/
def shapeLength (shape : List Nat) : Nat :=
  shape.foldl (fun length i => length * i) 1

/-- `toShape` from `src/math/shapes.ts`: convert a shape to a target
rank.  When `rank < shape.length` the result starts as `rank` ones and
the loop `i = 1 .. shape.length` either places `shape[shape.length - i]`
at position `rank - i` (when `i < rank`) or multiplies it into position
0.  When `rank > shape.length` the result starts as `rank` ones and
every source dimension is placed at position `rank - i`.  Otherwise the
source shape is returned unchanged. -/
def toShape (shape : List Nat) (rank : Nat) : List Nat :=
  if rank < shape.length then
    (List.range' 1 shape.length).foldl
      (fun res i =>
        if i < rank then
          res.set (rank - i) shape[shape.length - i]!
        else
          res.set 0 (res[0]! * shape[shape.length - i]!))
      (List.replicate rank 1)
  else if rank > shape.length then
    (List.range' 1 shape.length).foldl
      (fun res i => res.set (rank - i) shape[shape.length - i]!)
      (List.replicate rank 1)
  else
    shape

/-- `iterate1D` from `src/math/shapes.ts`: invoke the callback at
`i = 0, 1, …, length - 1` in order (no invocation when `length ≤ 0`).
The callback is embedded in state-passing style: it transforms a state
of an arbitrary type, which models an arbitrary side-effecting callback. -/
def iterate1D {σ : Type} (length : Int) (callback : Int → σ → σ) (s : σ) : σ :=
  (List.range length.toNat).foldl (fun s i => callback (Int.ofNat i) s) s

/-- `iterate2D` from `src/math/shapes.ts`: nested 1D iterations, the
second axis nested under the first. -/
def iterate2D {σ : Type} (shape : Int × Int) (callback : Int → Int → σ → σ) (s : σ) : σ :=
  iterate1D shape.1 (fun i => iterate1D shape.2 (fun j => callback i j)) s

/-- `iterate3D` from `src/math/shapes.ts`: nested 1D iterations over the
three axes, the last axis innermost. -/
def iterate3D {σ : Type} (shape : Int × Int × Int)
    (callback : Int → Int → Int → σ → σ) (s : σ) : σ :=
  iterate1D shape.1
    (fun i => iterate1D shape.2.1 (fun j => iterate1D shape.2.2 (fun k => callback i j k))) s

/-- `iterate4D` from `src/math/shapes.ts`: nested 1D iterations over the
four axes, the last axis innermost. -/
def iterate4D {σ : Type} (shape : Int × Int × Int × Int)
    (callback : Int → Int → Int → Int → σ → σ) (s : σ) : σ :=
  iterate1D shape.1
    (fun i => iterate1D shape.2.1
      (fun j => iterate1D shape.2.2.1
        (fun k => iterate1D shape.2.2.2 (fun l => callback i j k l)))) s

/-- The row-major sequence of index pairs of a 2D shape `[m, n]`:
`(0,0), (0,1), …, (0,n-1), (1,0), …, (m-1,n-1)` (last axis fastest). -/
def rowMajorPairs (m n : Int) : List (Int × Int) :=
  (List.range m.toNat).flatMap
    (fun i => (List.range n.toNat).map (fun j => (Int.ofNat i, Int.ofNat j)))

/-- The number of scalar leaves of a nested array as implied by the
sequence lengths along its first-element path: the product of the length
of the sequence at each nesting level, descending through the first
element. -/
def firstPathLeafCount : ArrayMap → Nat
  | .num _ => 1
  | .arr [] => 0
  | .arr (x :: xs) => (x :: xs).length * firstPathLeafCount x

/-- Whether the first-element path of a nested array runs into an empty
sequence. -/
def hasEmptyOnFirstPath : ArrayMap → Bool
  | .num _ => false
  | .arr [] => true
  | .arr (x :: _) => hasEmptyOnFirstPath x

example : inferShape (.arr [.arr [.arr [.arr [.num 1, .num 2], .arr [.num 3, .num 4]],
    .arr [.arr [.num 5, .num 6], .arr [.num 7, .num 8]]]]) = [1, 2, 2, 2] := by decide

example : shapeLength [1, 2, 3, 4] = 24 := by decide

example : toShape [1, 2, 3] 1 = [6] := by decide
example : toShape [1, 2, 3] 2 = [2, 3] := by decide
example : toShape [1, 2, 3] 3 = [1, 2, 3] := by decide
example : toShape [1, 2, 3] 4 = [1, 1, 2, 3] := by decide

example : iterate2D (2, 2) (fun i j l => l ++ [(i, j)]) ([] : List (Int × Int))
    = [(0, 0), (0, 1), (1, 0), (1, 1)] := by decide

/-! ### Helper lemmas -/

theorem shapeLength_eq_prod (shape : List Nat) : shapeLength shape = shape.prod := by
  rw [List.prod_eq_foldl]; rfl

theorem set_replicate_last (m : Nat) (v : Nat) (hm : 0 < m) :
    (List.replicate m (1 : Nat)).set (m - 1) v = List.replicate (m - 1) 1 ++ [v] := by
  obtain ⟨m, rfl⟩ : ∃ m', m = m' + 1 := ⟨m - 1, by omega⟩
  rw [show m + 1 = m + 1 by rfl, List.replicate_add (m := m) (n := 1)]
  rw [List.set_append_right _ _ (by simp)]
  simp

/-- Behaviour of the first `k` iterations of the rank-conversion loop when
positions are assigned directly (the expand loop, and the `i < rank` phase
of the collapse loop): the last `k` source dimensions have been placed
right-aligned and every earlier position still holds 1. -/
theorem toShape_fill_fold (shape : List Nat) (rank : Nat) (k : Nat)
    (hk : k ≤ shape.length) (hkr : k < rank) :
    (List.range' 1 k).foldl
      (fun res i => res.set (rank - i) shape[shape.length - i]!)
      (List.replicate rank 1)
    = List.replicate (rank - k) 1 ++ shape.drop (shape.length - k) := by
  induction k with
  | zero => simp [List.drop_length]
  | succ k ih =>
    rw [List.range'_1_concat, List.foldl_append, ih (by omega) (by omega)]
    simp only [List.foldl_cons, List.foldl_nil]
    have hlt : rank - (1 + k) < (List.replicate (rank - k) (1 : Nat)).length := by
      simp; omega
    rw [List.set_append_left _ _ hlt]
    have h1 : rank - (1 + k) = (rank - k) - 1 := by omega
    rw [h1, set_replicate_last _ _ (by omega)]
    have h2 : rank - k - 1 = rank - (k + 1) := by omega
    have h3 : shape.length - (k + 1) < shape.length := by omega
    have h4 : shape.drop (shape.length - (k + 1))
        = shape[shape.length - (k + 1)] :: shape.drop (shape.length - k) := by
      rw [List.drop_eq_getElem_cons h3,
        show shape.length - (k + 1) + 1 = shape.length - k by omega]
    have h5 : shape[shape.length - (1 + k)]! = shape[shape.length - (k + 1)] := by
      rw [show shape.length - (1 + k) = shape.length - (k + 1) by omega]
      exact getElem!_pos shape (shape.length - (k + 1)) h3
    rw [h2, List.append_assoc, h4, h5]
    rfl

/-- `toShape` in the expand case: the source dimensions are right-aligned
and every leading unfilled position holds 1. -/
theorem toShape_expand (shape : List Nat) (rank : Nat) (h : shape.length < rank) :
    toShape shape rank = List.replicate (rank - shape.length) 1 ++ shape := by
  unfold toShape
  rw [if_neg (by omega), if_pos h]
  have := toShape_fill_fold shape rank shape.length le_rfl h
  simpa using this

/-- Iterations of the collapse loop past position 0 only multiply into the
head of the accumulator. -/
theorem toShape_mul_fold (shape : List Nat) (rank : Nat) (I : List Nat)
    (hI : ∀ i ∈ I, rank ≤ i) (a : Nat) (t : List Nat) :
    I.foldl
      (fun res i =>
        if i < rank then
          res.set (rank - i) shape[shape.length - i]!
        else
          res.set 0 (res[0]! * shape[shape.length - i]!))
      (a :: t)
    = (I.foldl (fun acc i => acc * shape[shape.length - i]!) a) :: t := by
  induction I generalizing a with
  | nil => rfl
  | cons i I ih =>
    have hni : ¬ i < rank := by
      have := hI i (by simp)
      omega
    simp only [List.foldl_cons, if_neg hni, List.getElem!_cons_zero, List.set_cons_zero]
    exact ih (fun j hj => hI j (by simp [hj])) _

theorem foldl_mul_start (f : Nat → Nat) (l : List Nat) (a : Nat) :
    l.foldl (fun acc i => acc * f i) a = a * l.foldl (fun acc i => acc * f i) 1 := by
  induction l generalizing a with
  | nil => simp
  | cons i l ih =>
    simp only [List.foldl_cons]
    rw [ih (a * f i), ih (1 * f i)]
    ring

/-- The multiplications performed by the collapse loop accumulate, in
reverse order, exactly the product of the leading source dimensions. -/
theorem toShape_mul_range' (shape : List Nat) :
    ∀ (c r : Nat), r + c = shape.length + 1 → 1 ≤ r →
    (List.range' r c).foldl (fun acc i => acc * shape[shape.length - i]!) 1
      = (shape.take c).prod := by
  intro c
  induction c with
  | zero => simp
  | succ c ih =>
    intro r hrc hr
    rw [List.range'_succ, List.foldl_cons, one_mul,
      foldl_mul_start, ih (r + 1) (by omega) (by omega)]
    have hc : c < shape.length := by omega
    have h1 : shape.length - r = c := by omega
    rw [h1, getElem!_pos shape c hc]
    have h2 : shape.take (c + 1) = shape.take c ++ [shape[c]] := by
      rw [List.take_succ, List.getElem?_eq_getElem hc]
      rfl
    rw [h2, List.prod_append]
    simp [Nat.mul_comm]

/-- `toShape` in the collapse case: the innermost `rank - 1` dimensions
are kept right-aligned and every remaining leading dimension is collapsed
by multiplication into position 0. -/
theorem toShape_collapse (shape : List Nat) (rank : Nat)
    (h1 : 1 ≤ rank) (h2 : rank < shape.length) :
    toShape shape rank
      = (shape.take (shape.length - rank + 1)).prod
        :: shape.drop (shape.length - rank + 1) := by
  unfold toShape
  rw [if_pos h2]
  have hsplit : List.range' 1 shape.length
      = List.range' 1 (rank - 1) ++ List.range' rank (shape.length - rank + 1) := by
    have h := List.range'_append_1 1 (rank - 1) (shape.length - rank + 1)
    rw [show 1 + (rank - 1) = rank by omega] at h
    rw [show shape.length - rank + 1 + (rank - 1) = shape.length by omega] at h
    exact h.symm
  rw [hsplit, List.foldl_append]
  have hext : (List.range' 1 (rank - 1)).foldl
      (fun res i =>
        if i < rank then
          res.set (rank - i) shape[shape.length - i]!
        else
          res.set 0 (res[0]! * shape[shape.length - i]!))
      (List.replicate rank 1)
      = (List.range' 1 (rank - 1)).foldl
        (fun res i => res.set (rank - i) shape[shape.length - i]!)
        (List.replicate rank 1) := by
    apply List.foldl_ext
    intro res i hi
    obtain ⟨j, hj, rfl⟩ := List.mem_range'.1 hi
    have hilt : 1 + 1 * j < rank := by omega
    rw [if_pos hilt]
  have hph1 : (List.range' 1 (rank - 1)).foldl
      (fun res i =>
        if i < rank then
          res.set (rank - i) shape[shape.length - i]!
        else
          res.set 0 (res[0]! * shape[shape.length - i]!))
      (List.replicate rank 1)
      = 1 :: shape.drop (shape.length - rank + 1) := by
    rw [hext, toShape_fill_fold shape rank (rank - 1) (by omega) (by omega)]
    rw [show rank - (rank - 1) = 1 by omega]
    rw [show shape.length - (rank - 1) = shape.length - rank + 1 by omega]
    rfl
  rw [hph1, toShape_mul_fold shape rank _
    (fun i hi => by
      obtain ⟨j, hj, rfl⟩ := List.mem_range'.1 hi
      omega) 1 _]
  rw [toShape_mul_range' shape (shape.length - rank + 1) rank (by omega) h1]

/-- `toShape` when the target rank already matches. -/
theorem toShape_same (shape : List Nat) (rank : Nat) (h : rank = shape.length) :
    toShape shape rank = shape := by
  unfold toShape
  rw [if_neg (by omega), if_neg (by omega)]

theorem shapeLength_cons (a : Nat) (l : List Nat) :
    shapeLength (a :: l) = a * shapeLength l := by
  rw [shapeLength_eq_prod, shapeLength_eq_prod, List.prod_cons]

/-- Every dimension recorded by `inferShape` is positive as long as the
first-element path never meets an empty sequence. -/
theorem inferShape_pos : ∀ (x : ArrayMap), hasEmptyOnFirstPath x = false →
    ∀ d ∈ inferShape x, 1 ≤ d
  | .num _ => by
    intro _ d hd
    simp [inferShape] at hd
  | .arr [] => by
    intro h
    simp [hasEmptyOnFirstPath] at h
  | .arr (x :: xs) => by
    intro h d hd
    simp only [hasEmptyOnFirstPath] at h
    simp only [inferShape, List.mem_cons] at hd
    rcases hd with rfl | hd
    · simp
    · exact inferShape_pos x h d hd

/-! ### Claim theorems -/

/-- C1: for every valid shape `s` (non-empty, all entries ≥ 1) and every
target rank `r` in [1,6], `shapeLength (toShape s r)` equals
`shapeLength s`: rank conversion preserves the total element count, both
when collapsing and when expanding. -/
theorem toShape_preserves_shapeLength (s : List Nat) (r : Nat)
    (_hs : 1 ≤ s.length) (_hpos : ∀ d ∈ s, 1 ≤ d) (hr1 : 1 ≤ r) (_hr6 : r ≤ 6) :
    shapeLength (toShape s r) = shapeLength s := by
  rcases Nat.lt_trichotomy r s.length with h | h | h
  · rw [toShape_collapse s r hr1 h, shapeLength_eq_prod, shapeLength_eq_prod,
      List.prod_cons, List.prod_take_mul_prod_drop]
  · rw [toShape_same s r h]
  · rw [toShape_expand s r h, shapeLength_eq_prod, shapeLength_eq_prod,
      List.prod_append, List.prod_replicate, one_pow, one_mul]

/-- Witness for C1 at `s = [2,3,4]`, `r = 2`. -/
theorem toShape_preserves_shapeLength_witness :
    shapeLength (toShape [2, 3, 4] 2) = shapeLength [2, 3, 4] :=
  toShape_preserves_shapeLength [2, 3, 4] 2 (by decide) (by decide)
    (by decide) (by decide)

/-- C2: in the collapse case (`1 ≤ r < s.length`) `toShape` keeps the
innermost `r - 1` source dimensions positionally (right-aligned: the
result's positions 1..r-1 are the last r-1 source dimensions, in order)
and multiplies the remaining `s.length - r + 1` leading source
dimensions cumulatively into result position 0; in particular
`toShape [1,2,3] 2 = [2,3]`. -/
theorem toShape_collapse_spec :
    (∀ (s : List Nat) (r : Nat), 1 ≤ r → r < s.length →
      toShape s r
        = (s.take (s.length - r + 1)).prod :: s.drop (s.length - r + 1))
    ∧ toShape [1, 2, 3] 2 = [2, 3] :=
  ⟨fun s r h1 h2 => toShape_collapse s r h1 h2, by decide⟩

/-- Witness for C2 at `s = [2,3,4]`, `r = 2`: the leading two dimensions
2 and 3 collapse into 6 and the innermost dimension 4 is preserved. -/
theorem toShape_collapse_spec_witness : toShape [2, 3, 4] 2 = [6, 4] :=
  (toShape_collapse_spec.1 [2, 3, 4] 2 (by decide) (by decide)).trans (by decide)

/-- C3 counterexample: collapsing `[1,2,3]` to rank 1 does not return
`[1]`. -/
theorem toShape_123_rank1_ne : toShape [1, 2, 3] 1 ≠ [1] := by decide

/-- C3 (amended): `toShape [1,2,3] 1 = [6]` — when the target rank is 1
every source dimension is multiplied into the single remaining slot, so
the result is the product of all dimensions, not `[1]`. -/
theorem toShape_123_rank1_eq : toShape [1, 2, 3] 1 = [6] := by decide

/-- C4: in the expand case (`s.length < r ≤ 6`) `toShape` returns a shape
of length `r` in which the source dimensions appear right-aligned in
their original order and every leading unfilled position holds 1; in
particular `toShape [1,2,3] 4 = [1,1,2,3]`. -/
theorem toShape_expand_spec :
    (∀ (s : List Nat) (r : Nat), s.length < r → r ≤ 6 →
      toShape s r = List.replicate (r - s.length) 1 ++ s)
    ∧ toShape [1, 2, 3] 4 = [1, 1, 2, 3] :=
  ⟨fun s r h _ => toShape_expand s r h, by decide⟩

/-- Witness for C4 at `s = [5,7]`, `r = 4`. -/
theorem toShape_expand_spec_witness : toShape [5, 7] 4 = [1, 1, 5, 7] :=
  (toShape_expand_spec.1 [5, 7] 4 (by decide) (by decide)).trans (by decide)

/-- C5: for every valid shape `s` and target rank `r`, if `r` equals
`s.length` then `toShape s r` returns `s` unchanged. -/
theorem toShape_rank_eq_length (s : List Nat) (r : Nat)
    (_hs : 1 ≤ s.length) (_hpos : ∀ d ∈ s, 1 ≤ d) (h : r = s.length) :
    toShape s r = s :=
  toShape_same s r h

/-- Witness for C5 at `s = [4,5]`, `r = 2`. -/
theorem toShape_rank_eq_length_witness : toShape [4, 5] 2 = [4, 5] :=
  toShape_rank_eq_length [4, 5] 2 (by decide) (by decide) (by decide)

/-- C6 counterexample: `inferShape` applied to the empty outermost
sequence produces the shape `[0]`, which contains a dimension of size 0,
so the operations of the model do not always satisfy the "every element
≥ 1" part of the Shape invariant. -/
theorem inferShape_empty_violates_invariant :
    inferShape (ArrayMap.arr []) = [0]
      ∧ ¬ (∀ d ∈ inferShape (ArrayMap.arr []), 1 ≤ d) := by decide

/-- C6 (amended): `toShape` on a valid shape and rank in [1,6] always
satisfies the Shape invariant (length ≥ 1, all entries ≥ 1), and
`inferShape` satisfies it whenever the first-element path of the input
meets no empty sequence; the empty sequence is the sole exception,
producing the degenerate dimension 0. -/
theorem shape_invariant :
    (∀ (s : List Nat) (r : Nat), 1 ≤ s.length → (∀ d ∈ s, 1 ≤ d) →
      1 ≤ r → r ≤ 6 →
      1 ≤ (toShape s r).length ∧ ∀ d ∈ toShape s r, 1 ≤ d)
    ∧ (∀ (l : List ArrayMap), hasEmptyOnFirstPath (ArrayMap.arr l) = false →
      1 ≤ (inferShape (ArrayMap.arr l)).length
        ∧ ∀ d ∈ inferShape (ArrayMap.arr l), 1 ≤ d) := by
  constructor
  · intro s r hs hpos hr1 hr6
    rcases Nat.lt_trichotomy r s.length with h | h | h
    · rw [toShape_collapse s r hr1 h]
      refine ⟨by simp, ?_⟩
      intro d hd
      rcases List.mem_cons.1 hd with rfl | hd
      · exact List.one_le_prod_of_one_le
          (fun x hx => hpos x (List.mem_of_mem_take hx))
      · exact hpos d (List.mem_of_mem_drop hd)
    · rw [toShape_same s r h]
      exact ⟨hs, hpos⟩
    · rw [toShape_expand s r h]
      constructor
      · simp
        omega
      · intro d hd
        rcases List.mem_append.1 hd with hd | hd
        · have := List.eq_of_mem_replicate hd
          omega
        · exact hpos d hd
  · intro l h
    refine ⟨?_, inferShape_pos (ArrayMap.arr l) h⟩
    cases l with
    | nil => simp [hasEmptyOnFirstPath] at h
    | cons x xs => simp [inferShape]

/-- Witness for C6 (amended) at the input `[5]` (a one-element numeric
array): the inferred shape `[1]` satisfies the invariant. -/
theorem shape_invariant_witness :
    1 ≤ (inferShape (ArrayMap.arr [ArrayMap.num 5])).length
      ∧ ∀ d ∈ inferShape (ArrayMap.arr [ArrayMap.num 5]), 1 ≤ d :=
  shape_invariant.2 [ArrayMap.num 5] (by decide)

/-- C7: `inferShape` applied to an empty outermost sequence returns
exactly the one-element shape `[0]` and stops descending: no further
dimensions are recorded after the empty level. -/
theorem inferShape_empty_seq : inferShape (ArrayMap.arr []) = [0] := by decide

/-- C8: for every nested numeric array `x`, `shapeLength (inferShape x)`
equals the total count of scalar leaves of `x` as implied by the
sequence lengths along its first-element path (the product of the length
of the sequence at each nesting level, descending through the first
element).  This holds for every nesting depth, in particular depths 1 to
6. -/
theorem shapeLength_inferShape : ∀ (x : ArrayMap),
    shapeLength (inferShape x) = firstPathLeafCount x
  | .num _ => rfl
  | .arr [] => rfl
  | .arr (x :: xs) => by
    simp only [inferShape, firstPathLeafCount, shapeLength_cons]
    rw [shapeLength_inferShape x]

/-! ### Iteration lemmas -/

theorem foldl_const_state {α β : Type} (l : List α) (f : β → α → β)
    (h : ∀ b a, f b a = b) (b : β) : l.foldl f b = b := by
  induction l generalizing b with
  | nil => rfl
  | cons x l ih =>
    rw [List.foldl_cons, h b x]
    exact ih b

theorem iterate1D_nonpos {σ : Type} (n : Int) (hn : n ≤ 0)
    (cb : Int → σ → σ) (s : σ) : iterate1D n cb s = s := by
  unfold iterate1D
  rw [Int.toNat_of_nonpos hn]
  rfl

theorem iterate1D_id {σ : Type} (n : Int) (cb : Int → σ → σ)
    (h : ∀ i s, cb i s = s) (s : σ) : iterate1D n cb s = s := by
  unfold iterate1D
  exact foldl_const_state _ _ (fun b a => h _ b) s

/-- C9: for every 2D shape `[m, n]` with `m ≥ 0` and `n ≥ 0`, every
invocation pattern of `iterate2D [m,n] cb` is exactly a fold of `cb`
over the row-major sequence of index pairs
`(0,0), (0,1), …, (0,n-1), (1,0), …, (m-1,n-1)` — so `cb` is invoked
exactly `m * n` times, in row-major order (the last axis fastest). -/
theorem iterate2D_row_major (m n : Int) (hm : 0 ≤ m) (hn : 0 ≤ n) :
    (∀ (σ : Type) (cb : Int → Int → σ → σ) (s : σ),
      iterate2D (m, n) cb s
        = (rowMajorPairs m n).foldl (fun s p => cb p.1 p.2 s) s)
    ∧ ((rowMajorPairs m n).length : Int) = m * n := by
  constructor
  · intro σ cb s
    show (List.range m.toNat).foldl
        (fun s i => (List.range n.toNat).foldl
          (fun s j => cb (Int.ofNat i) (Int.ofNat j) s) s) s
      = (rowMajorPairs m n).foldl (fun s p => cb p.1 p.2 s) s
    unfold rowMajorPairs
    rw [List.flatMap_def, List.foldl_flatten, List.foldl_map]
    apply List.foldl_ext
    intro x i hi
    rw [List.foldl_map]
  · unfold rowMajorPairs
    rw [List.flatMap_def, List.length_flatten, List.map_map]
    rw [show (List.length ∘ fun i =>
          List.map (fun j => (Int.ofNat i, Int.ofNat j)) (List.range n.toNat))
        = fun i => n.toNat from funext fun i => by simp]
    rw [List.map_const', List.sum_replicate, smul_eq_mul, List.length_range,
      Nat.cast_mul, Int.toNat_of_nonneg hm, Int.toNat_of_nonneg hn]

/-- Witness for C9 at `m = 2`, `n = 3`. -/
theorem iterate2D_row_major_witness : ((rowMajorPairs 2 3).length : Int) = 2 * 3 :=
  (iterate2D_row_major 2 3 (by decide) (by decide)).2

/-- C10: `iterate1D n cb` invokes the callback zero times whenever
`n ≤ 0` (zero or negative), and consequently `iterate2D`, `iterate3D`
and `iterate4D` invoke their callback zero times whenever any dimension
of the given shape is ≤ 0: the state passed in is returned untouched for
every callback. -/
theorem iterate_nonpos_dim :
    (∀ (n : Int), n ≤ 0 → ∀ (σ : Type) (cb : Int → σ → σ) (s : σ),
      iterate1D n cb s = s)
    ∧ (∀ (m n : Int), m ≤ 0 ∨ n ≤ 0 →
      ∀ (σ : Type) (cb : Int → Int → σ → σ) (s : σ),
        iterate2D (m, n) cb s = s)
    ∧ (∀ (m n p : Int), m ≤ 0 ∨ n ≤ 0 ∨ p ≤ 0 →
      ∀ (σ : Type) (cb : Int → Int → Int → σ → σ) (s : σ),
        iterate3D (m, n, p) cb s = s)
    ∧ (∀ (m n p q : Int), m ≤ 0 ∨ n ≤ 0 ∨ p ≤ 0 ∨ q ≤ 0 →
      ∀ (σ : Type) (cb : Int → Int → Int → Int → σ → σ) (s : σ),
        iterate4D (m, n, p, q) cb s = s) := by
  refine ⟨fun n hn σ cb s => iterate1D_nonpos n hn cb s, ?_, ?_, ?_⟩
  · intro m n h σ cb s
    rcases h with h | h
    · exact iterate1D_nonpos m h _ s
    · exact iterate1D_id m _ (fun i s => iterate1D_nonpos n h _ s) s
  · intro m n p h σ cb s
    rcases h with h | h | h
    · exact iterate1D_nonpos m h _ s
    · exact iterate1D_id m _ (fun i s => iterate1D_nonpos n h _ s) s
    · exact iterate1D_id m _
        (fun i s => iterate1D_id n _ (fun j s => iterate1D_nonpos p h _ s) s) s
  · intro m n p q h σ cb s
    rcases h with h | h | h | h
    · exact iterate1D_nonpos m h _ s
    · exact iterate1D_id m _ (fun i s => iterate1D_nonpos n h _ s) s
    · exact iterate1D_id m _
        (fun i s => iterate1D_id n _ (fun j s => iterate1D_nonpos p h _ s) s) s
    · exact iterate1D_id m _
        (fun i s => iterate1D_id n _
          (fun j s => iterate1D_id p _ (fun k s => iterate1D_nonpos q h _ s) s) s) s

/-- Witness for C10 at the degenerate 2D shape `[0, 5]` with a counting
callback over state 0. -/
theorem iterate_nonpos_dim_witness :
    iterate2D (0, 5) (fun _ _ s => s + 1) (0 : Nat) = 0 :=
  iterate_nonpos_dim.2.1 0 5 (Or.inl (by decide)) Nat (fun _ _ s => s + 1) 0
